import Mathlib

/-!
Verification of the `LatexPdfViewerContribution` workbench contribution
(`src/vs/workbench/contrib/latexPdfViewer/browser/latexPdfViewer.contribution.ts`).

The contribution pins the editor into a fixed three-pane layout
(source / terminal / PDF output).  We give a shallow embedding of its
pure decision logic and of its event handlers as explicit state-passing
functions, and prove the spec-level properties about them.
-/

namespace Folio

/-! ### String helpers

Embeddings of the JavaScript string operations used by the source:
`name.endsWith(suffix)` and the regex strip removing a trailing `.tex`
(which, on a name ending in `.tex`, drops the last four characters). -/

def strEndsWith (s suffix : String) : Bool :=
  suffix.data.isSuffixOf s.data

def strDropRight (s : String) (n : Nat) : String :=
  String.mk (s.data.take (s.data.length - n))

/-! ### Directory listings -/

/-- One child of the workspace root directory, as reported by
`fileService.resolve(rootUri)` (the `name` / `isDirectory` fields the
source inspects). -/
structure FileEntry where
  name : String
  isDirectory : Bool
deriving DecidableEq, Repr

/-- Embedding of `findPdf` (lines 130-174 of the contribution): one pass
over the non-directory children collecting tex basenames, a `main.pdf`
flag and the pdf names in listing order, then
1. `main.pdf` if present,
2. otherwise the first *tex basename* (in listing order) whose matching
   pdf is in the listing,
3. otherwise the first pdf in listing order,
4. otherwise none. -/
def findPdf (children : List FileEntry) : Option String :=
  let files := children.filter (fun c => !c.isDirectory)
  let texFiles := (files.filter (fun c => strEndsWith c.name ".tex")).map
    (fun c => strDropRight c.name 4)
  let hasMainPdf := files.any (fun c => c.name == "main.pdf")
  let pdfFiles := (files.filter (fun c => strEndsWith c.name ".pdf")).map FileEntry.name
  if hasMainPdf then
    some "main.pdf"
  else
    match texFiles.find? (fun t => pdfFiles.contains (t ++ ".pdf")) with
    | some t => some (t ++ ".pdf")
    | none => pdfFiles.head?

/-- The discovery policy as the claim words it: `main.pdf` if present,
otherwise the first *PDF* (in listing order) whose basename matches some
tex source basename, otherwise the first PDF in listing order.  Stated
for comparison with `findPdf`, which iterates the tex basenames, not the
pdfs. -/
def findPdfClaimed (children : List FileEntry) : Option String :=
  let files := children.filter (fun c => !c.isDirectory)
  let texBases := (files.filter (fun c => strEndsWith c.name ".tex")).map
    (fun c => strDropRight c.name 4)
  let pdfFiles := (files.filter (fun c => strEndsWith c.name ".pdf")).map FileEntry.name
  if files.any (fun c => c.name == "main.pdf") then
    some "main.pdf"
  else
    match pdfFiles.find? (fun p => texBases.contains (strDropRight p 4)) with
    | some p => some p
    | none => pdfFiles.head?

/-- The amended discovery policy: `main.pdf` if present, otherwise the
pdf matching the first *tex source basename* (in listing order) that has
a matching pdf in the listing, otherwise the first pdf in listing order,
otherwise none. -/
def findPdfAmendedSpec (children : List FileEntry) : Option String :=
  let files := children.filter (fun c => !c.isDirectory)
  let texBases := (files.filter (fun c => strEndsWith c.name ".tex")).map
    (fun c => strDropRight c.name 4)
  let pdfFiles := (files.filter (fun c => strEndsWith c.name ".pdf")).map FileEntry.name
  if files.any (fun c => c.name == "main.pdf") then
    some "main.pdf"
  else
    match texBases.find? (fun t => pdfFiles.contains (t ++ ".pdf")) with
    | some t => some (t ++ ".pdf")
    | none => pdfFiles.head?

/-- Listing where the code and the claimed policy disagree: pdfs
`a.pdf, b.pdf` and tex sources `b.tex, a.tex` in that listing order. -/
def listingTexOrder : List FileEntry :=
  [⟨"a.pdf", false⟩, ⟨"b.pdf", false⟩, ⟨"b.tex", false⟩, ⟨"a.tex", false⟩]

def listingAll : List FileEntry :=
  [⟨"main.pdf", false⟩, ⟨"report.pdf", false⟩, ⟨"other.pdf", false⟩, ⟨"report.tex", false⟩]

def listingNoMain : List FileEntry :=
  [⟨"report.pdf", false⟩, ⟨"other.pdf", false⟩, ⟨"report.tex", false⟩]

def listingNoMatch : List FileEntry :=
  [⟨"other.pdf", false⟩, ⟨"report.tex", false⟩]

/-- Claim C1, counterexample: on the listing `a.pdf, b.pdf, b.tex, a.tex`
the code returns `b.pdf` (first matching *tex* basename in listing
order) while the claimed policy returns `a.pdf` (first matching *pdf*
in listing order), so `findPdf` does not implement the claimed
priority. -/
theorem findPdf_listing_order_cex :
    findPdf listingTexOrder = some "b.pdf" ∧
    findPdfClaimed listingTexOrder = some "a.pdf" ∧
    findPdf listingTexOrder ≠ findPdfClaimed listingTexOrder := by
  refine ⟨by decide, by decide, by decide⟩

/-- Claim C1, amended: `findPdf` returns `main.pdf` if present, otherwise
the pdf matching the first tex source basename (in listing order) that
has a matching pdf, otherwise the first pdf in listing order, otherwise
none; in particular on `{main.pdf, report.pdf, other.pdf}` with source
`report.tex` it returns `main.pdf`, with `main.pdf` removed it returns
`report.pdf`, and with that removed too it returns `other.pdf`. -/
theorem findPdf_priority_amended :
    (∀ children : List FileEntry, findPdf children = findPdfAmendedSpec children) ∧
    findPdf listingAll = some "main.pdf" ∧
    findPdf listingNoMain = some "report.pdf" ∧
    findPdf listingNoMatch = some "other.pdf" ∧
    findPdf [] = none := by
  refine ⟨fun children => rfl, by decide, by decide, by decide, by decide⟩

/-! ### Editors and editor groups

The source classifies editors by `typeId` and by the `.pdf` suffix of
their resource path, and classifies groups purely by their contents. -/

/-- An open editor: its resource path (if any), its `typeId`, and
whether the group currently marks it sticky. -/
structure Item where
  resourcePath : Option String
  typeId : String
  sticky : Bool
deriving DecidableEq, Repr

def Item.isPdf (i : Item) : Bool :=
  match i.resourcePath with
  | some p => strEndsWith p ".pdf"
  | none => false

def Item.isTerminal (i : Item) : Bool :=
  i.typeId == "workbench.editors.terminal"

/-- The `UNWANTED_TYPE_IDS` set from the source. -/
def unwantedTypeIds : List String :=
  ["workbench.editors.gettingStartedInput",
   "workbench.editors.welcomeInput",
   "workbench.editors.walkThroughInput",
   "workbench.editors.agentSessionsWelcomeInput",
   "workbench.editors.folioProjectsDashboardInput"]

def Item.isUnwanted (i : Item) : Bool :=
  unwantedTypeIds.contains i.typeId

/-- An editor group: its editors in order and its lock flag. -/
structure Pane where
  items : List Item
  locked : Bool
deriving DecidableEq, Repr

def Pane.hasPdf (p : Pane) : Bool :=
  p.items.any Item.isPdf

def Pane.hasTerminal (p : Pane) : Bool :=
  p.items.any Item.isTerminal

/-- The host call `group.lock(true)`. -/
def Pane.lockPane (p : Pane) : Pane :=
  { p with locked := true }

/-- The per-editor loop `if (!group.isSticky(ed)) group.stickEditor(ed)`. -/
def Pane.stickAll (p : Pane) : Pane :=
  { p with items := p.items.map (fun i => if i.sticky then i else { i with sticky := true }) }

/-- A freshly added editor group: empty and unlocked. -/
def freshPane : Pane := ⟨[], false⟩

/-! ### Group classification by content

`findEditorGroup` is `groups.find(g => !g.isLocked) || groups[0]`; we
work with indices into the group list, `firstIdxWhere` being the index
form of `Array.prototype.find`. -/

def firstIdxWhere (pred : Pane → Bool) : List Pane → Option Nat
  | [] => none
  | p :: ps => if pred p then some 0 else (firstIdxWhere pred ps).map (· + 1)

/-- Embedding of `findEditorGroup` (lines 395-399): the first unlocked
group, or the first group overall if all are locked; none when there is
no group at all. -/
def findEditorGroupIdx (panes : List Pane) : Option Nat :=
  match firstIdxWhere (fun p => !p.locked) panes with
  | some i => some i
  | none => match panes with
    | [] => none
    | _ :: _ => some 0

/-- Replace the pane at index `i` by `f` applied to it (used for
`group.lock(true)` and for merging editors into a target group). -/
def updateAt (i : Nat) (f : Pane → Pane) : List Pane → List Pane
  | [] => []
  | p :: ps =>
    match i with
    | 0 => f p :: ps
    | n + 1 => p :: updateAt n f ps

/-! ### Claim C2: race safety of the output-open latch

`openPdfViewer` (lines 176-219) and `openPdfInLockedGroup`
(lines 1127-1165) both run, synchronously and before their first
suspension point, `if (this.pdfOpened) return; this.pdfOpened = true;`
and only then issue the asynchronous open call; their `catch` resets
`pdfOpened = false`.  Under cooperative single-threaded scheduling the
check-and-set is atomic, so we model the system as an interleaving of
four atomic micro-steps: the two attempt entries (restore path and
file-watch path) and the completion of an in-flight open call with
success or failure. -/

inductive RaceEvent
  | attemptRestore
  | attemptWatch
  | completeSuccess
  | completeFail
deriving DecidableEq, Repr

structure RaceState where
  pdfOpened : Bool
  inflight : Nat
  issued : Nat
  succeeded : Nat
deriving DecidableEq, Repr

def initRace : RaceState := ⟨false, 0, 0, 0⟩

/-- The shared entry of `openPdfViewer` / `openPdfInLockedGroup`:
return early when the latch is set, otherwise set it and issue the open
call. -/
def attemptOpen (s : RaceState) : RaceState :=
  if s.pdfOpened then s
  else { s with pdfOpened := true, inflight := s.inflight + 1, issued := s.issued + 1 }

def raceStep (s : RaceState) (e : RaceEvent) : RaceState :=
  match e with
  | .attemptRestore => attemptOpen s
  | .attemptWatch => attemptOpen s
  | .completeSuccess =>
    if s.inflight = 0 then s
    else { s with inflight := s.inflight - 1, succeeded := s.succeeded + 1 }
  | .completeFail =>
    if s.inflight = 0 then s
    else { s with inflight := s.inflight - 1, pdfOpened := false }

def raceRun (es : List RaceEvent) : RaceState :=
  es.foldl raceStep initRace

/-- Inductive invariant of the latch protocol. -/
def RaceInv (s : RaceState) : Prop :=
  s.inflight ≤ 1 ∧ s.succeeded ≤ 1 ∧
  (s.succeeded = 1 → s.pdfOpened = true ∧ s.inflight = 0) ∧
  (s.inflight = 1 → s.pdfOpened = true)

theorem raceStep_inv {s : RaceState} (h : RaceInv s) (e : RaceEvent) :
    RaceInv (raceStep s e) := by
  obtain ⟨h1, h2, h3, h4⟩ := h
  cases e <;> simp only [raceStep, attemptOpen]
  case attemptRestore | attemptWatch =>
    by_cases hp : s.pdfOpened
    · simpa [hp] using ⟨h1, h2, h3, h4⟩
    · have hs : s.succeeded = 0 := by
        rcases Nat.lt_or_ge s.succeeded 1 with h | h
        · omega
        · exact absurd (h3 (by omega)).1 (by simp [hp])
      have hi : s.inflight = 0 := by
        rcases Nat.lt_or_ge s.inflight 1 with h | h
        · omega
        · exact absurd (h4 (by omega)) (by simp [hp])
      simp [hp, RaceInv, hs, hi]
  case completeSuccess =>
    by_cases hi : s.inflight = 0
    · simpa [hi] using ⟨h1, h2, h3, h4⟩
    · have hone : s.inflight = 1 := by omega
      have hs : s.succeeded = 0 := by
        rcases Nat.lt_or_ge s.succeeded 1 with h | h
        · omega
        · exact absurd (h3 (by omega)).2 (by omega)
      simp [hi, RaceInv, hone, hs, h4 hone]
  case completeFail =>
    by_cases hi : s.inflight = 0
    · simpa [hi] using ⟨h1, h2, h3, h4⟩
    · have hone : s.inflight = 1 := by omega
      have hs : s.succeeded = 0 := by
        rcases Nat.lt_or_ge s.succeeded 1 with h | h
        · omega
        · exact absurd (h3 (by omega)).2 (by omega)
      simp [hi, RaceInv, hone, hs]

theorem raceRun_inv_aux (es : List RaceEvent) (s : RaceState) (h : RaceInv s) :
    RaceInv (es.foldl raceStep s) := by
  induction es generalizing s with
  | nil => exact h
  | cons e es ih => exact ih _ (raceStep_inv h e)

/-- Without failures the latch is never reset, so at most one call is
ever issued. -/
def RaceNoFailInv (s : RaceState) : Prop :=
  s.issued ≤ 1 ∧ (1 ≤ s.issued → s.pdfOpened = true)

theorem raceStep_nofail_inv {s : RaceState} (h : RaceNoFailInv s) {e : RaceEvent}
    (he : e ≠ RaceEvent.completeFail) : RaceNoFailInv (raceStep s e) := by
  obtain ⟨h1, h2⟩ := h
  cases e <;> simp only [raceStep, attemptOpen]
  case attemptRestore | attemptWatch =>
    by_cases hp : s.pdfOpened
    · simpa [hp] using ⟨h1, h2⟩
    · have hz : s.issued = 0 := by
        rcases Nat.lt_or_ge s.issued 1 with h | h
        · omega
        · exact absurd (h2 h) (by simp [hp])
      simp [hp, RaceNoFailInv, hz]
  case completeSuccess =>
    by_cases hi : s.inflight = 0 <;> simp [hi, RaceNoFailInv, h1] <;> exact fun h => h2 h
  case completeFail => exact absurd rfl he

theorem raceRun_nofail_aux (es : List RaceEvent) (s : RaceState)
    (h : RaceNoFailInv s) (hf : RaceEvent.completeFail ∉ es) :
    RaceNoFailInv (es.foldl raceStep s) := by
  induction es generalizing s with
  | nil => exact h
  | cons e es ih =>
    simp only [List.mem_cons, not_or] at hf
    exact ih _ (raceStep_nofail_inv h (fun he => hf.1 he.symm)) hf.2

/-- Claim C2: for every interleaving of the restore-path check, the
file-watch attempts and open-call completions, at most one open of the
output artifact ever succeeds; and if no open call fails, at most one
open call is issued in total. -/
theorem race_at_most_one_open (es : List RaceEvent) :
    (raceRun es).succeeded ≤ 1 ∧
    (RaceEvent.completeFail ∉ es → (raceRun es).issued ≤ 1) := by
  constructor
  · exact (raceRun_inv_aux es initRace (by simp [RaceInv, initRace])).2.1
  · intro hf
    exact (raceRun_nofail_aux es initRace (by simp [RaceNoFailInv, initRace]) hf).1

/-- Witness for claim C2: the restore check and a watch event race, the
first wins, the second returns early on the latch. -/
theorem race_at_most_one_open_witness :
    (raceRun [RaceEvent.attemptRestore, RaceEvent.attemptWatch,
      RaceEvent.completeSuccess, RaceEvent.attemptWatch]).succeeded ≤ 1 ∧
    (raceRun [RaceEvent.attemptRestore, RaceEvent.attemptWatch,
      RaceEvent.completeSuccess, RaceEvent.attemptWatch]).issued ≤ 1 := by
  refine ⟨(race_at_most_one_open _).1, (race_at_most_one_open _).2 (by decide)⟩

/-! ### Terminal provisioning (`ensureTerminal`, lines 221-269)

`addGroup(editorGroup, GroupDirection.DOWN)` creates a new group next to
the editor group; `insertAfter i x` inserts the new group after index
`i` in the flat group list. -/

def insertAfter (i : Nat) (x : Pane) : List Pane → List Pane
  | [] => [x]
  | p :: ps =>
    match i with
    | 0 => p :: x :: ps
    | n + 1 => p :: insertAfter n x ps

/-- The terminal editor created by `terminalService.createTerminal` and
then marked sticky by the per-editor loop. -/
def terminalItem : Item := ⟨none, "workbench.editors.terminal", true⟩

structure TState where
  terminalOpened : Bool
  panes : List Pane
deriving DecidableEq, Repr

/-- Embedding of `ensureTerminal`: return early on the latch; if some
group already hosts a terminal editor, set the latch and lock that group
(already provisioned); otherwise set the latch, find the editor group
(resetting the latch if there is none), split it downward and create the
terminal there, locked and sticky.  When `createTerminal` rejects, the
`catch` resets the latch, and the freshly split group stays behind empty
and unlocked. -/
def ensureTerminal (createFails : Bool) (s : TState) : TState :=
  if s.terminalOpened then s
  else
    match firstIdxWhere Pane.hasTerminal s.panes with
    | some i => ⟨true, updateAt i Pane.lockPane s.panes⟩
    | none =>
      match findEditorGroupIdx s.panes with
      | none => ⟨false, s.panes⟩
      | some i =>
        if createFails then ⟨false, insertAfter i freshPane s.panes⟩
        else ⟨true, insertAfter i ⟨[terminalItem], true⟩ s.panes⟩

def iterateET : Nat → TState → TState
  | 0, s => s
  | n + 1, s => iterateET n (ensureTerminal false s)

/-- Number of groups hosting a terminal editor. -/
def terminalPaneCount (s : TState) : Nat :=
  (s.panes.filter Pane.hasTerminal).length

/-! Supporting lemmas about the list helpers. -/

theorem updateAt_length (i : Nat) (f : Pane → Pane) (l : List Pane) :
    (updateAt i f l).length = l.length := by
  induction l generalizing i with
  | nil => simp [updateAt]
  | cons p ps ih =>
    cases i with
    | zero => simp [updateAt]
    | succ n => simpa [updateAt] using ih n

theorem updateAt_get?_self (i : Nat) (f : Pane → Pane) (l : List Pane) :
    (updateAt i f l).get? i = (l.get? i).map f := by
  induction l generalizing i with
  | nil => simp [updateAt]
  | cons p ps ih =>
    cases i with
    | zero => simp [updateAt]
    | succ n => simpa [updateAt] using ih n

theorem updateAt_filter_length (pred : Pane → Bool) (i : Nat) (f : Pane → Pane)
    (hf : ∀ p, pred (f p) = pred p) (l : List Pane) :
    ((updateAt i f l).filter pred).length = (l.filter pred).length := by
  induction l generalizing i with
  | nil => simp [updateAt]
  | cons p ps ih =>
    cases i with
    | zero =>
      simp only [updateAt, List.filter, hf p]
      cases pred p <;> simp
    | succ n =>
      simp only [updateAt, List.filter]
      cases pred p <;> simp [ih n]

theorem insertAfter_filter_length (pred : Pane → Bool) (i : Nat) (x : Pane)
    (l : List Pane) :
    ((insertAfter i x l).filter pred).length =
      (l.filter pred).length + (if pred x then 1 else 0) := by
  induction l generalizing i with
  | nil => simp [insertAfter, List.filter]; cases pred x <;> simp
  | cons p ps ih =>
    cases i with
    | zero => simp only [insertAfter, List.filter]; cases pred p <;> cases hx : pred x <;> simp [hx]
    | succ n =>
      simp only [insertAfter, List.filter]
      cases pred p <;> simp [ih n, Nat.add_assoc, Nat.add_comm 1]

theorem insertAfter_ne_nil (i : Nat) (x : Pane) (l : List Pane) :
    insertAfter i x l ≠ [] := by
  cases l with
  | nil => simp [insertAfter]
  | cons p ps => cases i <;> simp [insertAfter]

theorem mem_insertAfter {y : Pane} (i : Nat) (x : Pane) (l : List Pane)
    (h : y ∈ insertAfter i x l) : y = x ∨ y ∈ l := by
  induction l generalizing i with
  | nil => simpa [insertAfter] using h
  | cons p ps ih =>
    cases i with
    | zero =>
      simp only [insertAfter, List.mem_cons] at h
      rcases h with h | h | h <;> simp [h]
    | succ n =>
      simp only [insertAfter, List.mem_cons] at h
      rcases h with h | h
      · simp [h]
      · rcases ih n h with h | h <;> simp [h]

theorem firstIdxWhere_eq_none {pred : Pane → Bool} {l : List Pane}
    (h : firstIdxWhere pred l = none) : ∀ p ∈ l, pred p = false := by
  induction l with
  | nil => intro p hp; cases hp
  | cons q qs ih =>
    intro p hp
    by_cases hq : pred q
    · simp [firstIdxWhere, hq] at h
    · simp only [firstIdxWhere, hq, if_neg, Bool.false_eq_true, if_false,
        Option.map_eq_none'] at h
      rcases List.mem_cons.mp hp with rfl | hp
      · simpa using hq
      · exact ih h p hp

theorem firstIdxWhere_of_all_false {pred : Pane → Bool} {l : List Pane}
    (h : ∀ p ∈ l, pred p = false) : firstIdxWhere pred l = none := by
  induction l with
  | nil => rfl
  | cons q qs ih =>
    have hq := h q (by simp)
    simp only [firstIdxWhere, hq, Bool.false_eq_true, if_false, Option.map_eq_none']
    exact ih (fun p hp => h p (by simp [hp]))

theorem firstIdxWhere_some_get {pred : Pane → Bool} {l : List Pane} {i : Nat}
    (h : firstIdxWhere pred l = some i) :
    ∃ p, l.get? i = some p ∧ pred p = true := by
  induction l generalizing i with
  | nil => cases h
  | cons q qs ih =>
    by_cases hq : pred q
    · simp only [firstIdxWhere, hq, if_true, Option.some.injEq] at h
      exact ⟨q, by simp [← h], hq⟩
    · simp only [firstIdxWhere, hq, Bool.false_eq_true, if_false] at h
      rcases Option.map_eq_some'.mp h with ⟨j, hj, rfl⟩
      obtain ⟨p, hp, hpred⟩ := ih hj
      exact ⟨p, by simpa using hp, hpred⟩

theorem findEditorGroupIdx_isSome {l : List Pane} (h : l ≠ []) :
    ∃ i, findEditorGroupIdx l = some i := by
  unfold findEditorGroupIdx
  cases hf : firstIdxWhere (fun p => !p.locked) l with
  | some i => exact ⟨i, rfl⟩
  | none =>
    cases l with
    | nil => exact absurd rfl h
    | cons p ps => exact ⟨0, rfl⟩

/-! Behaviour of a single `ensureTerminal` call. -/

theorem ensureTerminal_latched (b : Bool) {s : TState} (h : s.terminalOpened = true) :
    ensureTerminal b s = s := by
  simp [ensureTerminal, h]

theorem iterateET_latched (n : Nat) {s : TState} (h : s.terminalOpened = true) :
    iterateET n s = s := by
  induction n with
  | zero => rfl
  | succ m ih => simpa [iterateET, ensureTerminal_latched false h] using ih

theorem ensureTerminal_first (s : TState) (hlatch : s.terminalOpened = false)
    (hcount : terminalPaneCount s ≤ 1) (hne : s.panes ≠ []) :
    (ensureTerminal false s).terminalOpened = true ∧
    terminalPaneCount (ensureTerminal false s) = 1 ∧
    (∀ i, firstIdxWhere Pane.hasTerminal s.panes = some i →
      (ensureTerminal false s).panes.length = s.panes.length ∧
      ∃ p, (ensureTerminal false s).panes.get? i = some p ∧
        p.locked = true ∧ p.hasTerminal = true) := by
  cases hf : firstIdxWhere Pane.hasTerminal s.panes with
  | some i =>
    have hval : ensureTerminal false s = ⟨true, updateAt i Pane.lockPane s.panes⟩ := by
      simp [ensureTerminal, hlatch, hf]
    obtain ⟨p, hp, hpred⟩ := firstIdxWhere_some_get hf
    have hmem : p ∈ s.panes := List.get?_mem hp
    have hpos : 0 < terminalPaneCount s := by
      have hmf : p ∈ s.panes.filter Pane.hasTerminal := List.mem_filter.mpr ⟨hmem, hpred⟩
      exact List.length_pos.mpr (fun hnil => by simp [hnil] at hmf)
    have hcount1 : terminalPaneCount s = 1 := by omega
    have hlock : ∀ q : Pane, (Pane.lockPane q).hasTerminal = q.hasTerminal := fun q => rfl
    refine ⟨by rw [hval], ?_, ?_⟩
    · rw [show terminalPaneCount (ensureTerminal false s)
          = ((updateAt i Pane.lockPane s.panes).filter Pane.hasTerminal).length from by
            rw [hval]; rfl]
      rw [updateAt_filter_length Pane.hasTerminal i Pane.lockPane hlock]
      exact hcount1
    · intro j hj
      have hij : i = j := Option.some.inj hj
      subst hij
      refine ⟨by rw [hval]; exact updateAt_length i Pane.lockPane s.panes, ?_⟩
      refine ⟨Pane.lockPane p, ?_, rfl, by rw [hlock]; exact hpred⟩
      rw [show (ensureTerminal false s).panes = updateAt i Pane.lockPane s.panes from by
        rw [hval]]
      rw [updateAt_get?_self, hp]
      rfl
  | none =>
    have hzero : (s.panes.filter Pane.hasTerminal).length = 0 := by
      have hnil : s.panes.filter Pane.hasTerminal = [] :=
        List.filter_eq_nil_iff.mpr (fun p hp => by
          simpa using firstIdxWhere_eq_none hf p hp)
      rw [hnil]
      rfl
    obtain ⟨i, hi⟩ := findEditorGroupIdx_isSome hne
    have hterm : Pane.hasTerminal ⟨[terminalItem], true⟩ = true := by decide
    have hval : ensureTerminal false s
        = ⟨true, insertAfter i ⟨[terminalItem], true⟩ s.panes⟩ := by
      simp [ensureTerminal, hlatch, hf, hi]
    refine ⟨by rw [hval], ?_, ?_⟩
    · rw [show terminalPaneCount (ensureTerminal false s)
          = ((insertAfter i ⟨[terminalItem], true⟩ s.panes).filter Pane.hasTerminal).length
          from by rw [hval]; rfl]
      rw [insertAfter_filter_length, hterm, hzero]
      simp
    · intro j hj
      exact Option.noConfusion hj

/-- Claim C5: from a fresh activation (latch down, at most one group
already hosting a terminal, at least one group present), calling
`ensureTerminal` any number `n ≥ 1` of times — restore path and/or
cold-start path — leaves exactly one terminal group; and when a terminal
group already existed at some index, no group is added (the group list
keeps its length) and that group ends up locked, still hosting its
terminal. -/
theorem ensureTerminal_idempotent (n : Nat) (s : TState) (hn : 1 ≤ n)
    (hlatch : s.terminalOpened = false) (hcount : terminalPaneCount s ≤ 1)
    (hne : s.panes ≠ []) :
    terminalPaneCount (iterateET n s) = 1 ∧
    (∀ i, firstIdxWhere Pane.hasTerminal s.panes = some i →
      (iterateET n s).panes.length = s.panes.length ∧
      ∃ p, (iterateET n s).panes.get? i = some p ∧
        p.locked = true ∧ p.hasTerminal = true) := by
  obtain ⟨m, rfl⟩ : ∃ m, n = m + 1 := ⟨n - 1, by omega⟩
  obtain ⟨h1, h2, h3⟩ := ensureTerminal_first s hlatch hcount hne
  have hrest : iterateET (m + 1) s = ensureTerminal false s := by
    simp [iterateET, iterateET_latched m h1]
  rw [hrest]
  exact ⟨h2, h3⟩

/-- Witness for claim C5: three calls on a single empty unlocked group
provision exactly one terminal group. -/
theorem ensureTerminal_idempotent_witness :
    terminalPaneCount (iterateET 3 ⟨false, [freshPane]⟩) = 1 := by
  exact (ensureTerminal_idempotent 3 ⟨false, [freshPane]⟩ (by decide) (by decide)
    (by decide) (by decide)).1

/-! ### Claim C3: failure resets the one-shot latches

`openPdfViewer` (lines 176-219) and `openPdfInLockedGroup`
(lines 1127-1165) manage the `pdfOpened` latch identically: early return
when set, set it, try the open, and on a throw or rejection reset it in
the `catch`.  The two functions are modelled separately on the latch. -/

def openPdfViewerLatch (pdfOpened openFails : Bool) : Bool :=
  if pdfOpened then pdfOpened
  else if openFails then false else true

def openPdfInLockedGroupLatch (pdfOpened openFails : Bool) : Bool :=
  if pdfOpened then pdfOpened
  else if openFails then false else true

/-- Claim C3: whenever the open of the output artifact or the creation
of the terminal throws or rejects, the corresponding latch (`pdfOpened`
resp. `terminalOpened`) ends up reset to `false`, and a retry on a
subsequent event can still succeed (it sets the latch). -/
theorem latch_reset_on_failure :
    openPdfViewerLatch false true = false ∧
    openPdfViewerLatch (openPdfViewerLatch false true) false = true ∧
    openPdfInLockedGroupLatch false true = false ∧
    openPdfInLockedGroupLatch (openPdfInLockedGroupLatch false true) false = true ∧
    (∀ s : TState, s.terminalOpened = false →
      firstIdxWhere Pane.hasTerminal s.panes = none →
      s.panes ≠ [] →
      (ensureTerminal true s).terminalOpened = false ∧
      (ensureTerminal false (ensureTerminal true s)).terminalOpened = true) := by
  refine ⟨rfl, rfl, rfl, rfl, ?_⟩
  intro s hlatch hnone hne
  obtain ⟨i, hi⟩ := findEditorGroupIdx_isSome hne
  have hfail : ensureTerminal true s = ⟨false, insertAfter i freshPane s.panes⟩ := by
    simp [ensureTerminal, hlatch, hnone, hi]
  have hnone2 : firstIdxWhere Pane.hasTerminal (insertAfter i freshPane s.panes) = none := by
    refine firstIdxWhere_of_all_false (fun p hp => ?_)
    rcases mem_insertAfter i freshPane s.panes hp with rfl | hp
    · decide
    · exact firstIdxWhere_eq_none hnone p hp
  obtain ⟨j, hj⟩ := findEditorGroupIdx_isSome (insertAfter_ne_nil i freshPane s.panes)
  refine ⟨by simp [hfail], ?_⟩
  rw [hfail]
  simp [ensureTerminal, hnone2, hj]

/-- Witness for claim C3: a failing terminal creation on a single empty
group resets the latch, and the retry succeeds. -/
theorem latch_reset_on_failure_witness :
    (ensureTerminal true ⟨false, [freshPane]⟩).terminalOpened = false ∧
    (ensureTerminal false (ensureTerminal true ⟨false, [freshPane]⟩)).terminalOpened = true := by
  exact latch_reset_on_failure.2.2.2.2 ⟨false, [freshPane]⟩ rfl (by decide) (by decide)

/-! ### Claim C4: the pane-count guard (lines 289-296)

`onDidAddGroup` fires with the newly created group (last in creation
order); when the group count exceeds 3 the handler merges the new group
into `findEditorGroup() || groups[0]`.  `mergeGroup(src, tgt)` moves the
editors of `src` into `tgt` and removes `src`. -/

def mergeLastInto (t : Nat) (panes : List Pane) : List Pane :=
  match panes.getLast? with
  | none => panes
  | some lastP =>
    updateAt t (fun tp => { tp with items := tp.items ++ lastP.items }) panes.dropLast

/-- The `onDidAddGroup` handler, run on the group list with the new
group appended: merge the new group into the editor group when the
count exceeds 3.  Also returns the merge target it used (if any), so
that the merge-target policy can be stated. -/
def paneAddedGuard (panes : List Pane) : List Pane × Option Pane :=
  if panes.length > 3 then
    match findEditorGroupIdx panes with
    | some t => (mergeLastInto t panes, panes.get? t)
    | none => (panes, none)
  else (panes, none)

/-- A sequence of `n` pane additions, the guard running after each one;
returns the final group list and the merge targets used along the way. -/
def runAdds : Nat → List Pane → List Pane × List Pane
  | 0, panes => (panes, [])
  | n + 1, panes =>
    let g := paneAddedGuard (panes ++ [freshPane])
    let r := runAdds n g.1
    (r.1, g.2.toList ++ r.2)

/-- State invariant: at most three groups, the source group (an unlocked
group) exists, and every output or terminal group is locked (invariant
I4 of the spec, maintained by the lock guards). -/
def CollapseInv (panes : List Pane) : Prop :=
  panes.length ≤ 3 ∧ (∃ p ∈ panes, p.locked = false) ∧
  ∀ p ∈ panes, (p.hasPdf = true ∨ p.hasTerminal = true) → p.locked = true

theorem firstIdxWhere_append_some {pred : Pane → Bool} {l₁ : List Pane} {i : Nat}
    (l₂ : List Pane) (h : firstIdxWhere pred l₁ = some i) :
    firstIdxWhere pred (l₁ ++ l₂) = some i := by
  induction l₁ generalizing i with
  | nil => cases h
  | cons p ps ih =>
    by_cases hp : pred p
    · simpa [firstIdxWhere, hp] using h
    · simp only [List.cons_append, firstIdxWhere, hp, Bool.false_eq_true, if_false] at h ⊢
      rcases Option.map_eq_some'.mp h with ⟨j, hj, rfl⟩
      rw [List.append_eq, ih hj]
      rfl

theorem firstIdxWhere_isSome_of_mem {pred : Pane → Bool} {l : List Pane} {p : Pane}
    (hp : p ∈ l) (hpred : pred p = true) : ∃ i, firstIdxWhere pred l = some i := by
  induction l with
  | nil => cases hp
  | cons q qs ih =>
    by_cases hq : pred q
    · exact ⟨0, by simp [firstIdxWhere, hq]⟩
    · rcases List.mem_cons.mp hp with rfl | hp
      · exact absurd hpred (by simpa using hq)
      · obtain ⟨i, hi⟩ := ih hp
        exact ⟨i + 1, by simp [firstIdxWhere, hq, hi]⟩

theorem firstIdxWhere_some_lt {pred : Pane → Bool} {l : List Pane} {i : Nat}
    (h : firstIdxWhere pred l = some i) : i < l.length := by
  obtain ⟨p, hp, _⟩ := firstIdxWhere_some_get h
  have := List.get?_eq_some.mp hp
  exact this.1

theorem updateAt_id (i : Nat) (f : Pane → Pane) (hf : ∀ p, f p = p) (l : List Pane) :
    updateAt i f l = l := by
  induction l generalizing i with
  | nil => simp [updateAt]
  | cons p ps ih =>
    cases i with
    | zero => simp [updateAt, hf p]
    | succ n => simp [updateAt, ih n]

theorem paneAddedGuard_inv {panes : List Pane} (h : CollapseInv panes) :
    CollapseInv (paneAddedGuard (panes ++ [freshPane])).1 ∧
    (∀ tp, (paneAddedGuard (panes ++ [freshPane])).2 = some tp →
      tp.hasPdf = false ∧ tp.hasTerminal = false) := by
  obtain ⟨hlen, ⟨u, hu, hul⟩, hlock⟩ := h
  have hlenl : (panes ++ [freshPane]).length = panes.length + 1 := by simp
  by_cases hsmall : panes.length + 1 > 3
  case neg =>
    have hcond : ¬((panes ++ [freshPane]).length > 3) := by rw [hlenl]; omega
    have hval : paneAddedGuard (panes ++ [freshPane]) = (panes ++ [freshPane], none) := by
      simp only [paneAddedGuard]
      rw [if_neg hcond]
    rw [hval]
    refine ⟨⟨?_, ⟨u, ?_, hul⟩, ?_⟩, ?_⟩
    · show (panes ++ [freshPane]).length ≤ 3
      rw [hlenl]
      omega
    · show u ∈ panes ++ [freshPane]
      exact List.mem_append.mpr (Or.inl hu)
    · intro p hp hkind
      rcases List.mem_append.mp hp with hp | hp
      · exact hlock p hp hkind
      · have hpf : p = freshPane := by simpa using hp
        subst hpf
        rcases hkind with hk | hk <;> exact absurd hk (by decide)
    · intro tp htp
      cases htp
  case pos =>
    have hcond : (panes ++ [freshPane]).length > 3 := by rw [hlenl]; omega
    have hpu : (fun p : Pane => !p.locked) u = true := by
      show (!u.locked) = true
      rw [hul]
      rfl
    obtain ⟨t, ht⟩ := @firstIdxWhere_isSome_of_mem (fun p => !p.locked) panes u hu hpu
    have htl : firstIdxWhere (fun p => !p.locked) (panes ++ [freshPane]) = some t :=
      firstIdxWhere_append_some _ ht
    have htlt : t < panes.length := firstIdxWhere_some_lt ht
    have hfind : findEditorGroupIdx (panes ++ [freshPane]) = some t := by
      simp [findEditorGroupIdx, htl]
    obtain ⟨tp, htp, htpu⟩ := firstIdxWhere_some_get ht
    have htpl : tp.locked = false := by simpa using htpu
    have hget : (panes ++ [freshPane]).get? t = some tp := by
      rw [List.get?_append htlt]; exact htp
    have hmerge : mergeLastInto t (panes ++ [freshPane]) = panes := by
      unfold mergeLastInto
      rw [List.getLast?_concat, List.dropLast_concat]
      exact updateAt_id t _ (fun p => by simp [freshPane]) panes
    have hval : paneAddedGuard (panes ++ [freshPane]) = (panes, some tp) := by
      simp only [paneAddedGuard]
      rw [if_pos hcond, hfind]
      show (mergeLastInto t (panes ++ [freshPane]), (panes ++ [freshPane]).get? t)
        = (panes, some tp)
      rw [hmerge, hget]
    rw [hval]
    have htpok : tp.hasPdf = false ∧ tp.hasTerminal = false := by
      have hmem : tp ∈ panes := List.get?_mem htp
      constructor
      · by_contra hc
        have := hlock tp hmem (Or.inl (by simpa using hc))
        rw [this] at htpl
        cases htpl
      · by_contra hc
        have := hlock tp hmem (Or.inr (by simpa using hc))
        rw [this] at htpl
        cases htpl
    exact ⟨⟨hlen, ⟨u, hu, hul⟩, hlock⟩, fun q hq => by
      rw [← Option.some.inj hq]; exact htpok⟩

theorem runAdds_inv (n : Nat) (panes : List Pane) (h : CollapseInv panes) :
    CollapseInv (runAdds n panes).1 ∧
    ∀ tp ∈ (runAdds n panes).2, tp.hasPdf = false ∧ tp.hasTerminal = false := by
  induction n generalizing panes with
  | zero => exact ⟨h, fun tp htp => by cases htp⟩
  | succ m ih =>
    obtain ⟨h1, h2⟩ := paneAddedGuard_inv h
    obtain ⟨h3, h4⟩ := ih _ h1
    refine ⟨h3, ?_⟩
    intro tp htp
    simp only [runAdds, List.mem_append] at htp
    rcases htp with htp | htp
    · exact h2 tp (by simpa using htp)
    · exact h4 tp htp

/-- Claim C4: starting from at most three groups, with the source group
unlocked and every output/terminal group locked, any sequence of pane
additions leaves at most three groups after the guard runs, and the
merge target — the first unlocked group, or the first group when all are
locked — is never an output or terminal group. -/
theorem collapse_invariant (n : Nat) (panes : List Pane)
    (hlen : panes.length ≤ 3)
    (hsrc : ∃ p ∈ panes, p.locked = false)
    (hlock : ∀ p ∈ panes, (p.hasPdf = true ∨ p.hasTerminal = true) → p.locked = true) :
    (runAdds n panes).1.length ≤ 3 ∧
    ∀ tp ∈ (runAdds n panes).2, tp.hasPdf = false ∧ tp.hasTerminal = false := by
  obtain ⟨⟨h1, _, _⟩, h2⟩ := runAdds_inv n panes ⟨hlen, hsrc, hlock⟩
  exact ⟨h1, h2⟩

def pdfPaneExample : Pane :=
  ⟨[⟨some "/ws/main.pdf", "workbench.editors.webview", true⟩], true⟩

def terminalPaneExample : Pane :=
  ⟨[terminalItem], true⟩

/-- Witness for claim C4: two additions on the standard three-pane
layout still leave at most three groups. -/
theorem collapse_invariant_witness :
    (runAdds 2 [freshPane, terminalPaneExample, pdfPaneExample]).1.length ≤ 3 := by
  exact (collapse_invariant 2 [freshPane, terminalPaneExample, pdfPaneExample]
    (by decide) (by decide) (by decide)).1

/-! ### Claims C6 and C7: the model-change guards (lines 299-371)

`onDidModelChange` events are delivered synchronously and one handler
runs to completion before any other event is processed (cooperative
single-threaded scheduling), so each handler is a single state-to-state
function.  The handlers never touch the `pdfOpened` / `terminalOpened`
latches, which the model carries to state exactly that. -/

inductive ModelChange
  | groupLocked
  | editorSticky
  | editorOpened (item : Item)
  | otherChange
deriving DecidableEq, Repr

/-- The state a model-change guard acts on: the guarded group, the
items of the editor group (the move target; the code skips the move when
`findEditorGroup()` returns nothing), and the two latches. -/
structure GuardCtx where
  guardedPane : Pane
  sourceItems : List Item
  pdfOpened : Bool
  terminalOpened : Bool
deriving DecidableEq, Repr

/-- Embedding of the PDF-group guard (lines 300-326): re-lock on a lock
change that left the group unlocked; re-stick every unsticky editor on a
sticky change; move a newly opened non-PDF editor to the editor group;
ignore everything else. -/
def pdfGuardHandler (e : ModelChange) (s : GuardCtx) : GuardCtx :=
  match e with
  | .groupLocked =>
    if s.guardedPane.locked then s
    else { s with guardedPane := s.guardedPane.lockPane }
  | .editorSticky => { s with guardedPane := s.guardedPane.stickAll }
  | .editorOpened it =>
    if it.isPdf then s
    else { s with
      guardedPane := { s.guardedPane with items := s.guardedPane.items.erase it },
      sourceItems := s.sourceItems ++ [it] }
  | .otherChange => s

/-- Embedding of the terminal-group guard (lines 332-349): re-lock on a
lock change that left the group unlocked; move a newly opened
non-terminal editor to the editor group; no sticky branch. -/
def terminalGuardHandler (e : ModelChange) (s : GuardCtx) : GuardCtx :=
  match e with
  | .groupLocked =>
    if s.guardedPane.locked then s
    else { s with guardedPane := s.guardedPane.lockPane }
  | .editorOpened it =>
    if it.isTerminal then s
    else { s with
      guardedPane := { s.guardedPane with items := s.guardedPane.items.erase it },
      sourceItems := s.sourceItems ++ [it] }
  | _ => s

/-- Claim C6: after the model-change handler runs (and hence before any
other event is processed), a reported-unlocked output group is locked
again, every item of the output group is sticky again after a sticky
change, an unlocked terminal group is likewise re-locked, and no handler
ever changes the `pdfOpened` or `terminalOpened` latch. -/
theorem relock_invariant (s : GuardCtx) :
    (pdfGuardHandler ModelChange.groupLocked s).guardedPane.locked = true ∧
    (terminalGuardHandler ModelChange.groupLocked s).guardedPane.locked = true ∧
    ((pdfGuardHandler ModelChange.editorSticky s).guardedPane.items.all
      (fun i => i.sticky)) = true ∧
    (∀ e, (pdfGuardHandler e s).pdfOpened = s.pdfOpened ∧
      (pdfGuardHandler e s).terminalOpened = s.terminalOpened ∧
      (terminalGuardHandler e s).pdfOpened = s.pdfOpened ∧
      (terminalGuardHandler e s).terminalOpened = s.terminalOpened) := by
  refine ⟨?_, ?_, ?_, ?_⟩
  · by_cases h : s.guardedPane.locked <;> simp [pdfGuardHandler, h, Pane.lockPane]
  · by_cases h : s.guardedPane.locked <;> simp [terminalGuardHandler, h, Pane.lockPane]
  · simp only [pdfGuardHandler, Pane.stickAll, List.all_eq_true]
    intro i hi
    rw [List.mem_map] at hi
    obtain ⟨j, _, rfl⟩ := hi
    by_cases hj : j.sticky <;> simp [hj]
  · intro e
    cases e with
    | groupLocked =>
      by_cases h : s.guardedPane.locked <;>
        simp [pdfGuardHandler, terminalGuardHandler, h]
    | editorSticky => simp [pdfGuardHandler, terminalGuardHandler]
    | editorOpened it =>
      refine ⟨?_, ?_, ?_, ?_⟩ <;>
        [skip; skip; skip; skip] <;>
        first
        | (by_cases h : it.isPdf <;> simp [pdfGuardHandler, h])
        | (by_cases h : it.isTerminal <;> simp [terminalGuardHandler, h])
    | otherChange => simp [pdfGuardHandler, terminalGuardHandler]

/-- Embedding of the editor-group guard (lines 359-371): on an
editor-open event in the source group, close every other editor there
(`closeEditors` removes exactly the listed editors). -/
def sourceGuardHandler (e : ModelChange) (items : List Item) : List Item :=
  match e with
  | .editorOpened it =>
    let toClose := items.filter (fun ed => !(ed == it))
    if 0 < toClose.length then items.filter (fun ed => ed == it) else items
  | _ => items

/-- Claim C7: for an editor-open event in the source group (the opened
editor being among the editors of the group, present once as the host lists
each editor once), after the handler settles exactly the newly opened
editor remains in the group. -/
theorem source_single_item (items : List Item) (it : Item)
    (hcount : items.count it = 1) :
    sourceGuardHandler (ModelChange.editorOpened it) items = [it] := by
  have hfilter : items.filter (fun ed => ed == it) = [it] := by
    have := List.filter_beq items it
    rw [hcount] at this
    exact this
  simp only [sourceGuardHandler]
  by_cases h : 0 < (items.filter (fun ed => !(ed == it))).length
  · rw [if_pos h]
    exact hfilter
  · rw [if_neg h]
    have hnil : items.filter (fun ed => !(ed == it)) = [] :=
      List.length_eq_zero.mp (by omega)
    have hall : ∀ ed ∈ items, (ed == it) = true := by
      intro ed hed
      have := List.filter_eq_nil_iff.mp hnil ed hed
      simpa using this
    calc items = items.filter (fun ed => ed == it) :=
        (List.filter_eq_self.mpr hall).symm
    _ = [it] := hfilter

/-- Witness for claim C7: opening a second file in a source group that
already held another file leaves exactly the new file. -/
theorem source_single_item_witness :
    sourceGuardHandler
      (ModelChange.editorOpened ⟨some "/ws/b.tex", "workbench.editors.files.fileEditorInput", false⟩)
      [⟨some "/ws/a.tex", "workbench.editors.files.fileEditorInput", false⟩,
       ⟨some "/ws/b.tex", "workbench.editors.files.fileEditorInput", false⟩]
    = [⟨some "/ws/b.tex", "workbench.editors.files.fileEditorInput", false⟩] := by
  exact source_single_item _ _ (by decide)

/-! ### Claim C8: unwanted editors (lines 376-391) -/

/-- Embedding of `closeUnwantedEditors`: in every group, close the
editors whose `typeId` is in `UNWANTED_TYPE_IDS`.  It is invoked from
`onDidActiveEditorChange`, i.e. once per event-processing cycle. -/
def closeUnwantedEditors (panes : List Pane) : List Pane :=
  panes.map (fun g =>
    if 0 < (g.items.filter (fun e => e.isUnwanted)).length then
      { g with items := g.items.filter (fun e => !e.isUnwanted) }
    else g)

/-- Claim C8: after `closeUnwantedEditors` runs, no group — whichever
group the unwanted editor was opened in — still contains an editor with
an unwanted type id (Getting Started, Welcome, walkthrough,
agent-sessions welcome, dashboard), and no group is added or removed. -/
theorem unwanted_closed (panes : List Pane) :
    ((closeUnwantedEditors panes).all
      (fun p => p.items.all (fun i => !i.isUnwanted))) = true ∧
    (closeUnwantedEditors panes).length = panes.length := by
  constructor
  · rw [List.all_eq_true]
    intro p hp
    rw [closeUnwantedEditors, List.mem_map] at hp
    obtain ⟨g, hg, rfl⟩ := hp
    by_cases h : 0 < (g.items.filter (fun e => e.isUnwanted)).length
    · rw [if_pos h, List.all_eq_true]
      intro i hi
      exact (List.mem_filter.mp hi).2
    · rw [if_neg h, List.all_eq_true]
      intro i hi
      have hnil : g.items.filter (fun e => e.isUnwanted) = [] :=
        List.length_eq_zero.mp (by omega)
      have := List.filter_eq_nil_iff.mp hnil i hi
      simpa using this
  · simp [closeUnwantedEditors]

/-! ### Claims C9 and C10: the activation control flow (`run`, lines 47-128)

`run` awaits the restored lifecycle phase, returns when the workbench is
empty; on the restore path (a `.pdf` editor already open) it provisions
the terminal and arms enforcement; otherwise it returns when there is no
workspace folder; otherwise it resolves the root listing through
`findPdf` and either opens the PDF, or applies the placeholder layout,
registers the file watcher (the `Watching` state) and auto-opens a
LaTeX source editor, swallowing any error of that auto-open. -/

/-- Result of `findPdf` when the `fileService.resolve` call itself may throw or
report no children: the `catch` and the `!rootStat.children` check both
yield no result. -/
def findPdfFrom (listing : Option (List FileEntry)) : Option String :=
  match listing with
  | none => none
  | some cs => findPdf cs

/-- The auto-open selection (lines 101-104): the child named exactly
`main.tex` when present, otherwise the first child whose name ends in
`.tex`; like the source, the selection does not exclude directories. -/
def pickTexFile (children : List FileEntry) : Option FileEntry :=
  match children.find? (fun c => c.name == "main.tex") with
  | some c => some c
  | none => children.find? (fun c => strEndsWith c.name ".tex")

inductive Phase
  | emptyWorkbench
  | noFolder
  | restored
  | openedPdf
  | watching
deriving DecidableEq, Repr

/-- Observable outcome of one `run`: where the control flow ended, whether
any error was surfaced (no path of `run` rethrows or reports one),
whether the `onDidFilesChange` watcher was registered, and which source
file (if any) was auto-opened. -/
structure RunOutcome where
  phase : Phase
  errorSurfaced : Bool
  watcherSubscribed : Bool
  texOpened : Option String
deriving DecidableEq, Repr

/-- Embedding of the control flow decisions of `run`.  `listing` is the root
listing seen by `findPdf` and `texListing` the one resolved again for
the auto-open (`none` models a rejected `resolve`, whose error the
auto-open `catch` swallows). -/
def runActivation (workbenchEmpty restoredPdfOpen : Bool) (foldersCount : Nat)
    (listing texListing : Option (List FileEntry)) : RunOutcome :=
  if workbenchEmpty then ⟨.emptyWorkbench, false, false, none⟩
  else if restoredPdfOpen then ⟨.restored, false, false, none⟩
  else if foldersCount = 0 then ⟨.noFolder, false, false, none⟩
  else
    match findPdfFrom listing with
    | some _ => ⟨.openedPdf, false, false, none⟩
    | none =>
      match texListing with
      | none => ⟨.watching, false, true, none⟩
      | some cs => ⟨.watching, false, true, (pickTexFile cs).map FileEntry.name⟩

/-- Claim C9, counterexample: with no workspace folder (and the
workbench not empty, no restored PDF), activation returns without
subscribing to file-change notifications and without entering the
`Watching` state, so the claim that discovery remains watching and
subscribed under every missing precondition fails for the
missing-folder precondition. -/
theorem missing_precondition_cex :
    ¬ ((runActivation false false 0 (some []) (some [])).watcherSubscribed = true ∧
      (runActivation false false 0 (some []) (some [])).phase = Phase.watching) := by
  decide

/-- Claim C9, amended: a missing workspace folder makes activation
return silently — no error surfaced, no watcher, nothing opened — while
the other missing preconditions (no output artifact, no source files, a
failed listing) leave discovery in the `Watching` state, subscribed to
file-change notifications, with no error surfaced. -/
theorem missing_precondition_amended (foldersCount : Nat)
    (listing texListing : Option (List FileEntry)) :
    (foldersCount = 0 →
      runActivation false false foldersCount listing texListing
        = ⟨Phase.noFolder, false, false, none⟩) ∧
    (0 < foldersCount → findPdfFrom listing = none →
      (runActivation false false foldersCount listing texListing).phase
          = Phase.watching ∧
      (runActivation false false foldersCount listing texListing).watcherSubscribed
          = true ∧
      (runActivation false false foldersCount listing texListing).errorSurfaced
          = false) := by
  constructor
  · intro h
    simp [runActivation, h]
  · intro hfc hpdf
    have hne : ¬(foldersCount = 0) := by omega
    cases htex : texListing <;>
      simp [runActivation, hne, hpdf, htex]

/-- Witness for claim C9: one folder, empty listing — discovery watches,
subscribed, without error. -/
theorem missing_precondition_amended_witness :
    (runActivation false false 1 (some []) (some [])).phase = Phase.watching ∧
    (runActivation false false 1 (some []) (some [])).watcherSubscribed = true ∧
    (runActivation false false 1 (some []) (some [])).errorSurfaced = false := by
  exact (missing_precondition_amended 1 (some []) (some [])).2 (by decide) (by decide)

/-- Claim C10: on the cold-start path with no PDF artifact, `run`
auto-opens the entry named exactly `main.tex` when one exists, otherwise
the first entry whose name ends in `.tex`; a failure while resolving the
listing is silently ignored (nothing opened, no error); and no auto-open
happens when a PDF was found or on the restore path. -/
theorem tex_autoopen (foldersCount : Nat) (listing : Option (List FileEntry))
    (cs : List FileEntry) (hfc : 0 < foldersCount) :
    (findPdfFrom listing = none →
      ((∃ c ∈ cs, c.name = "main.tex") →
        (runActivation false false foldersCount listing (some cs)).texOpened
          = some "main.tex") ∧
      ((∀ c ∈ cs, c.name ≠ "main.tex") →
        (runActivation false false foldersCount listing (some cs)).texOpened
          = (cs.find? (fun c => strEndsWith c.name ".tex")).map FileEntry.name) ∧
      (runActivation false false foldersCount listing none).texOpened = none ∧
      (runActivation false false foldersCount listing none).errorSurfaced = false) ∧
    (∀ u, findPdfFrom listing = some u →
      (runActivation false false foldersCount listing (some cs)).texOpened = none) ∧
    (runActivation false true foldersCount listing (some cs)).texOpened = none := by
  have hne : ¬(foldersCount = 0) := by omega
  refine ⟨?_, ?_, ?_⟩
  · intro hpdf
    refine ⟨?_, ?_, ?_, ?_⟩
    · intro hmain
      have hsome : (cs.find? (fun c => c.name == "main.tex")).isSome := by
        rw [List.find?_isSome]
        obtain ⟨c, hc, hn⟩ := hmain
        exact ⟨c, hc, by simp [hn]⟩
      obtain ⟨c, hc⟩ := Option.isSome_iff_exists.mp hsome
      have hname : c.name = "main.tex" := by
        have := List.find?_some hc
        simpa using this
      simp [runActivation, hne, hpdf, pickTexFile, hc, hname]
    · intro hnomain
      have hnone : cs.find? (fun c => c.name == "main.tex") = none := by
        rw [List.find?_eq_none]
        intro c hc
        simp [hnomain c hc]
      simp [runActivation, hne, hpdf, pickTexFile, hnone]
    · simp [runActivation, hne, hpdf]
    · simp [runActivation, hne, hpdf]
  · intro u hpdf
    simp [runActivation, hne, hpdf]
  · simp [runActivation]

/-- Witness for claim C10: a listing containing `main.tex` gets
`main.tex` auto-opened on the watch path. -/
theorem tex_autoopen_witness :
    (runActivation false false 1 (some [])
        (some [⟨"notes.tex", false⟩, ⟨"main.tex", false⟩])).texOpened
      = some "main.tex" := by
  exact ((tex_autoopen 1 (some []) [⟨"notes.tex", false⟩, ⟨"main.tex", false⟩]
    (by decide)).1 (by decide)).1 (by decide)

end Folio
